import Mathlib

/-!
Verification of the check_the_docs MCP server (src/server.py) against its
natural-language specification.

Shallow embedding conventions:
* Python strings are `List Char` (named `Str` below); all string functions
  (slicing, `rfind`, `lower`, …) are modelled at the ASCII level, which covers
  every input the claims mention.
* Python `int` indices are `Int` (slice indices really do go negative in the
  chunker loop, and Python then interprets them relative to the end of the
  string, so the embedding keeps full Python slice-index normalization).
* Python floats (vector-store distances) are modelled as rationals `ℚ`: the
  claims about them concern only exact comparisons and `1 - d`.
* The unbounded `while` loop of `DocumentProcessor._chunk_text` is embedded
  with explicit fuel; termination of the Python loop at an input is
  `∃ fuel, chunkTextFuel … fuel = some _`.
-/

/-- A Python string, modelled as its list of characters. -/
abbrev Str := List Char

/-- Python slice/`rfind` index normalization: a negative index counts from the
end of the string and the result is clamped to `[0, len]`. -/
def pyNorm (len : Nat) (i : Int) : Nat :=
  if i < 0 then ((len : Int) + i).toNat else min i.toNat len

/-- Python slice `s[a:b]` (step 1), with full negative-index normalization. -/
def pySlice (s : Str) (a b : Int) : Str :=
  (s.take (pyNorm s.length b)).drop (pyNorm s.length a)

/-- Does `sub` occur in `s` starting at (absolute) position `i`?
Mirrors a regex/`str.find` style exact match test. -/
def matchesAt (s sub : Str) (i : Nat) : Bool :=
  (s.drop i).take sub.length == sub

/-- Python substring containment `sub in s`. -/
def containsSub (s sub : Str) : Bool :=
  (List.range (s.length + 1)).any (fun i => matchesAt s sub i)

/-- Python `s.endswith(suf)`. -/
def endsWithStr (s suf : Str) : Bool :=
  matchesAt s suf (s.length - suf.length)

/-- Scan downward from position `i` through `steps` further positions for the
highest match of `sub`; the worker behind Python `str.rfind`. -/
def rfindGo (s sub : Str) : Nat → Nat → Option Nat
  | 0, i => if matchesAt s sub i then some i else none
  | steps + 1, i =>
    if matchesAt s sub i then some i else rfindGo s sub steps (i - 1)

/-- Python `s.rfind(sub, a, b)`: highest `i` with `a' ≤ i`, `i + |sub| ≤ b'`
and `s[i : i+|sub|] = sub` (where `a'`, `b'` are the slice-normalized bounds),
or `-1` when there is none. -/
def pyRfind (s sub : Str) (a b : Int) : Int :=
  let lo := pyNorm s.length a
  let hi := pyNorm s.length b
  if hi < sub.length + lo then -1
  else
    match rfindGo s sub (hi - sub.length - lo) (hi - sub.length) with
    | some i => (i : Int)
    | none => -1

/-- The two configuration fields of `DocumentProcessor.__init__`
(src/server.py lines 50-52); the source defaults are 2000 and 200. -/
structure DocumentProcessor where
  chunk_size : Nat := 2000
  chunk_overlap : Nat := 200

/-- The break-point chain of src/server.py lines 86-92: `rfind` a paragraph
break, else a sentence break, else any newline. -/
def findBreakPoint (text : Str) (start e : Int) : Int :=
  let bp := pyRfind text ['\n', '\n'] start e
  let bp := if bp = -1 then pyRfind text ['.', ' '] start e else bp
  if bp = -1 then pyRfind text ['\n'] start e else bp

/-- One iteration's cut-point computation of `DocumentProcessor._chunk_text`
(src/server.py lines 81-94): the window end is `start + chunk_size`; if that
falls strictly before the end of the text, search backward for a paragraph
break `"\n\n"`, else a sentence break `". "`, else any `"\n"`, and when the
found break point is not `-1` and lies strictly after `start`, cut one past
the match. -/
def computeEnd (p : DocumentProcessor) (text : Str) (start : Int) : Int :=
  let e : Int := start + p.chunk_size
  if e < (text.length : Int) then
    let bp := findBreakPoint text start e
    if bp ≠ -1 ∧ start < bp then bp + 1 else e
  else e

/-- The `while` loop of `DocumentProcessor._chunk_text` (src/server.py lines
80-101), with explicit fuel: append `text[start:end]`, advance `start` to
`end - chunk_overlap`, and stop once the advanced `start` reaches
`text_length - 1` (the source's non-progress guard). `none` means the fuel ran
out before the Python loop exited. -/
def chunkLoop (p : DocumentProcessor) (text : Str) :
    Nat → Int → List Str → Option (List Str)
  | 0, _, _ => none
  | fuel + 1, start, acc =>
    if start < (text.length : Int) then
      let e := computeEnd p text start
      let acc' := acc ++ [pySlice text start e]
      let start' := e - p.chunk_overlap
      if (text.length : Int) - 1 ≤ start' then some acc'
      else chunkLoop p text fuel start' acc'
    else some acc

/-- The call `DocumentProcessor._chunk_text(text)` run with the given fuel. -/
def chunkTextFuel (p : DocumentProcessor) (text : Str) (fuel : Nat) :
    Option (List Str) :=
  chunkLoop p text fuel 0 []

/-- The Python chunker loop terminates on this processor and text. -/
def ChunkerTerminates (p : DocumentProcessor) (text : Str) : Prop :=
  ∃ fuel out, chunkTextFuel p text fuel = some out

/-- Same loop as `chunkLoop`, recording the raw `(start, end)` slice bounds of
each emitted chunk instead of the chunk text; on fuel exhaustion it returns
the bounds recorded so far (used to inspect prefixes of non-terminating
runs). -/
def chunkRanges (p : DocumentProcessor) (text : Str) :
    Nat → Int → List (Int × Int) → List (Int × Int)
  | 0, _, acc => acc
  | fuel + 1, start, acc =>
    if start < (text.length : Int) then
      let e := computeEnd p text start
      let acc' := acc ++ [(start, e)]
      let start' := e - p.chunk_overlap
      if (text.length : Int) - 1 ≤ start' then acc'
      else chunkRanges p text fuel start' acc'
    else acc

/-! ### ASCII character classes and Python string helpers -/

/-- Little-endian decimal digit characters of `n`, with fuel (`fuel ≥ n`
suffices). -/
def natReprGo : Nat → Nat → List Char
  | 0, _ => []
  | _, 0 => []
  | fuel + 1, n + 1 => Nat.digitChar ((n + 1) % 10) :: natReprGo fuel ((n + 1) / 10)

/-- Python `str(n)` for a natural number: decimal digits. -/
def natRepr (n : Nat) : Str :=
  if n = 0 then ['0'] else (natReprGo n n).reverse

/-- Python `str(i)` for an integer: optional minus sign, then decimal digits. -/
def intRepr (i : Int) : Str :=
  if i < 0 then '-' :: natRepr i.natAbs else natRepr i.natAbs

/-- The regex class `\s` (ASCII whitespace, as in the inputs at hand). -/
def isSpaceChar (c : Char) : Bool :=
  c == ' ' || c == '\t' || c == '\n' || c == '\r' || c == '\x0b' || c == '\x0c'

/-- The regex class `\w` (ASCII): letters, digits, underscore. -/
def isWordChar (c : Char) : Bool :=
  c.isAlphanum || c == '_'

/-- The ASCII case table behind Python `str.lower` for the inputs at hand. -/
def pyLowerPairs : List (Char × Char) :=
  [('A', 'a'), ('B', 'b'), ('C', 'c'), ('D', 'd'), ('E', 'e'), ('F', 'f'),
   ('G', 'g'), ('H', 'h'), ('I', 'i'), ('J', 'j'), ('K', 'k'), ('L', 'l'),
   ('M', 'm'), ('N', 'n'), ('O', 'o'), ('P', 'p'), ('Q', 'q'), ('R', 'r'),
   ('S', 's'), ('T', 't'), ('U', 'u'), ('V', 'v'), ('W', 'w'), ('X', 'x'),
   ('Y', 'y'), ('Z', 'z')]

/-- Python `str.lower` on one character (ASCII model). -/
def pyLowerChar (c : Char) : Char :=
  match pyLowerPairs.lookup c with
  | some l => l
  | none => c

/-- Python `str.lower` (ASCII model). -/
def pyLower (s : Str) : Str := s.map pyLowerChar

/-- Python `sep.join(xs)` for a one-character separator. -/
def joinWith (c : Char) (xs : List Str) : Str := List.intercalate [c] xs

/-! ### `_analyze_diff_significance` (src/server.py lines 110-191) -/

/-- The `significant_keywords` set literal (src/server.py lines 114-119), kept
in source order; the score only uses which keywords occur, not their order. -/
def significantKeywords : List Str :=
  ["function".data, "def".data, "class".data, "interface".data, "api".data,
   "endpoint".data, "route".data, "export".data, "import".data, "async".data,
   "await".data, "public".data, "private".data, "protected".data,
   "config".data, "settings".data, "env".data, "param".data, "return".data,
   "throw".data, "error".data, "deprecated".data, "todo".data, "fixme".data,
   "hack".data, "note".data, "warning".data]

/-- The `high_priority_files` extension set (src/server.py line 122). -/
def highPriorityExts : List Str :=
  [".py".data, ".js".data, ".ts".data, ".jsx".data, ".tsx".data,
   ".java".data, ".go".data, ".rs".data]

/-- The API-route marker literals of the regex on src/server.py line 136;
`re.search` of this alternation is substring containment of some literal. -/
def apiMarkers : List Str :=
  ["@app.".data, "@router.".data, "@route".data, ".route(".data,
   ".get(".data, ".post(".data, ".put(".data, ".delete(".data]

/-- The configuration marker literals of the regex on src/server.py line 139. -/
def configMarkers : List Str :=
  ["config".data, "settings".data, "env".data, "environment".data]

/-- Try the keyword alternation `def|function|class` at position `j`
(case-sensitive, for the definition-counting regex of src/server.py
lines 132-133); returns the keyword length. The three keywords start with
distinct letters, so at most one branch can apply. -/
def defKeyAt (s : Str) (j : Nat) : Option Nat :=
  if (s.drop j).take 3 == "def".data then some 3
  else if (s.drop j).take 8 == "function".data then some 8
  else if (s.drop j).take 5 == "class".data then some 5
  else none

/-- Try to match `^\s*(def|function|class)\s+\w+` at line-start position `i`;
returns the end position of the match. The character classes of adjacent
regex pieces are disjoint, so the greedy runs need no backtracking. -/
def matchDefAt (s : Str) (i : Nat) : Option Nat :=
  let ws := ((s.drop i).takeWhile isSpaceChar).length
  let j := i + ws
  match defKeyAt s j with
  | none => none
  | some k =>
    let sp := ((s.drop (j + k)).takeWhile isSpaceChar).length
    if sp = 0 then none
    else
      let w := ((s.drop (j + k + sp)).takeWhile isWordChar).length
      if w = 0 then none else some (j + k + sp + w)

/-- Scanner for `re.findall(r'^\s*def\s+\w+|…', text, re.MULTILINE)`:
leftmost non-overlapping matches, where `^` holds at position 0 and right
after each newline; counts the matches. -/
def countDefsGo (s : Str) : Nat → Nat → Bool → Nat → Nat
  | 0, _, _, acc => acc
  | fuel + 1, i, atStart, acc =>
    if s.length ≤ i then acc
    else if atStart then
      match matchDefAt s i with
      | some e => countDefsGo s fuel e false (acc + 1)
      | none => countDefsGo s fuel (i + 1) (s.getD i ' ' == '\n') acc
    else countDefsGo s fuel (i + 1) (s.getD i ' ' == '\n') acc

/-- Number of matches of the function/class definition regex
(src/server.py lines 132-133). -/
def countDefs (s : Str) : Nat := countDefsGo s (s.length + 1) 0 true 0

/-- The result dict of `_analyze_diff_significance`
(src/server.py lines 182-191). -/
structure SignificanceResult where
  requires_documentation : Bool
  significance_score : Nat
  reason : Str
  summary : Str
  change_type : Str
  new_functions : Nat
  api_changes : Bool
  config_changes : Bool
deriving DecidableEq

/-- The function `_analyze_diff_significance(added_lines, removed_lines, file_path)`
(src/server.py lines 110-191), a pure function of its arguments. -/
def analyzeDiffSignificance (added_lines removed_lines : List Str)
    (file_path : Str) : SignificanceResult :=
  let added_text := pyLower (joinWith ' ' added_lines)
  let added_keywords := significantKeywords.filter (fun kw => containsSub added_text kw)
  let new_functions := countDefs (joinWith '\n' added_lines)
  let removed_functions := countDefs (joinWith '\n' removed_lines)
  let api_changes := apiMarkers.any (fun m => containsSub added_text m)
  let config_changes := configMarkers.any (fun m => containsSub added_text m)
  let score1 := if 0 < new_functions then new_functions * 3 else 0
  let reasons1 :=
    if 0 < new_functions then
      ["Added ".data ++ natRepr new_functions ++ " new function/class definitions".data]
    else []
  let score2 := score1 + (if 0 < removed_functions then removed_functions * 2 else 0)
  let reasons2 := reasons1 ++
    (if 0 < removed_functions then
      ["Removed ".data ++ natRepr removed_functions ++ " function/class definitions".data]
    else [])
  let score3 := score2 + (if api_changes then 5 else 0)
  let reasons3 := reasons2 ++ (if api_changes then ["API endpoint changes detected".data] else [])
  let score4 := score3 + (if config_changes then 3 else 0)
  let reasons4 := reasons3 ++
    (if config_changes then ["Configuration changes detected".data] else [])
  let score5 := score4 + added_keywords.length
  let reasons5 := reasons4 ++
    (if added_keywords ≠ [] then
      ["Significant keywords found: ".data ++
        List.intercalate ", ".data (added_keywords.take 3)]
    else [])
  let score6 := score5 + (if highPriorityExts.any (fun e => endsWithStr file_path e) then 1 else 0)
  let score7 := score6 +
    (if 20 < added_lines.length ∨ 20 < removed_lines.length then 2 else 0)
  let reasons7 := reasons5 ++
    (if 20 < added_lines.length ∨ 20 < removed_lines.length then
      ["Large code changes detected".data] else [])
  { requires_documentation := 3 ≤ score7
    significance_score := score7
    reason := if reasons7 ≠ [] then List.intercalate "; ".data reasons7
              else "Minor code changes".data
    summary := "Score: ".data ++ natRepr score7 ++ ", ".data ++
      natRepr added_lines.length ++ " lines added, ".data ++
      natRepr removed_lines.length ++ " lines removed".data
    change_type := if 8 ≤ score7 then "major".data
                   else if 5 ≤ score7 then "moderate".data
                   else "minor".data
    new_functions := new_functions
    api_changes := api_changes
    config_changes := config_changes }

/-! ### `_extract_terms_from_diff` (src/server.py lines 193-230) -/

/-- An apostrophe character (Python quote). -/
def squote : Char := Char.ofNat 39

/-- The regex class of a quote `["']`. -/
def isQuote (c : Char) : Bool := c == '"' || c == squote

/-- The regex class `[/\w\-\.]` of the API-route pattern
(src/server.py line 206). -/
def isRouteChar (c : Char) : Bool :=
  c == '/' || isWordChar c || c == '-' || c == '.'

/-- Try the alternation `def|function|class`, case-insensitively, at position
`i` (the `re.IGNORECASE` pattern of src/server.py line 200); returns the
keyword length. -/
def kwDefAtCI (s : Str) (i : Nat) : Option Nat :=
  let low := ((s.drop i).take 8).map pyLowerChar
  if low.take 3 == "def".data then some 3
  else if low == "function".data then some 8
  else if low.take 5 == "class".data then some 5
  else none

/-- Try the alternation `import|from` at position `i`
(src/server.py line 210); returns the keyword length. -/
def kwImpAt (s : Str) (i : Nat) : Option Nat :=
  if (s.drop i).take 6 == "import".data then some 6
  else if (s.drop i).take 4 == "from".data then some 4
  else none

/-- After a keyword of length `k` at position `i`, match `\s+(\w+)` and return
the match end together with the captured identifier. -/
def matchNameAfterKw (s : Str) (i k : Nat) : Option (Nat × Str) :=
  let sp := ((s.drop (i + k)).takeWhile isSpaceChar).length
  if sp = 0 then none
  else
    let w := (s.drop (i + k + sp)).takeWhile isWordChar
    if w.length = 0 then none else some (i + k + sp + w.length, w)

/-- Leftmost non-overlapping scan for a keyword-plus-identifier pattern
(`re.findall` with one capture group); `kwAt` is the keyword matcher. -/
def findKwNamesGo (kwAt : Str → Nat → Option Nat) (s : Str) :
    Nat → Nat → List Str → List Str
  | 0, _, acc => acc
  | fuel + 1, i, acc =>
    if s.length ≤ i then acc
    else
      match kwAt s i with
      | some k =>
        match matchNameAfterKw s i k with
        | some (e, w) => findKwNamesGo kwAt s fuel e (acc ++ [w])
        | none => findKwNamesGo kwAt s fuel (i + 1) acc
      | none => findKwNamesGo kwAt s fuel (i + 1) acc

/-- Embeds `re.findall(r'(?:def|function|class)\s+(\w+)', text, re.IGNORECASE)`
(src/server.py line 200). -/
def findFnNames (s : Str) : List Str := findKwNamesGo kwDefAtCI s (s.length + 1) 0 []

/-- Embeds `re.findall(r'(?:import|from)\s+(\w+)', text)` (src/server.py line 210). -/
def findImports (s : Str) : List Str := findKwNamesGo kwImpAt s (s.length + 1) 0 []

/-- Try to match `^\s*(\w+)\s*=` at line-start position `i`
(src/server.py line 203); returns the match end and the captured identifier.
Adjacent character classes are disjoint, so the greedy runs need no
backtracking. -/
def matchVarAt (s : Str) (i : Nat) : Option (Nat × Str) :=
  let ws := ((s.drop i).takeWhile isSpaceChar).length
  let j := i + ws
  let w := (s.drop j).takeWhile isWordChar
  if w.length = 0 then none
  else
    let j2 := j + w.length
    let sp2 := ((s.drop j2).takeWhile isSpaceChar).length
    if s.getD (j2 + sp2) ' ' == '=' then some (j2 + sp2 + 1, w) else none

/-- Scanner for `re.findall(r'^\s*(\w+)\s*=', text, re.MULTILINE)`: `^` holds
at position 0 and right after each newline. -/
def findVarNamesGo (s : Str) : Nat → Nat → Bool → List Str → List Str
  | 0, _, _, acc => acc
  | fuel + 1, i, atStart, acc =>
    if s.length ≤ i then acc
    else if atStart then
      match matchVarAt s i with
      | some (e, w) => findVarNamesGo s fuel e false (acc ++ [w])
      | none => findVarNamesGo s fuel (i + 1) (s.getD i ' ' == '\n') acc
    else findVarNamesGo s fuel (i + 1) (s.getD i ' ' == '\n') acc

/-- Embeds `re.findall(r'^\s*(\w+)\s*=', text, re.MULTILINE)` (src/server.py
line 203). -/
def findVarNames (s : Str) : List Str := findVarNamesGo s (s.length + 1) 0 true []

/-- Scanner for `re.findall(r'["\x27]([/\w\-\.]+)["\x27]', text)`
(src/server.py line 206): a quote, a nonempty run of route characters, and a
closing quote (either kind); captures the run. -/
def findRoutesGo (s : Str) : Nat → Nat → List Str → List Str
  | 0, _, acc => acc
  | fuel + 1, i, acc =>
    if s.length ≤ i then acc
    else if isQuote (s.getD i ' ') then
      let w := (s.drop (i + 1)).takeWhile isRouteChar
      if w.length ≠ 0 ∧ isQuote (s.getD (i + 1 + w.length) ' ') then
        findRoutesGo s fuel (i + 1 + w.length + 1) (acc ++ [w])
      else findRoutesGo s fuel (i + 1) acc
    else findRoutesGo s fuel (i + 1) acc

/-- All quoted route-character runs in `text` (src/server.py line 206). -/
def findRoutes (s : Str) : List Str := findRoutesGo s (s.length + 1) 0 []

/-- Embeds `pathlib.PurePosixPath(p).parts`: the root (when absolute) followed by the
nonempty, non-`.` components. -/
def pathParts (p : Str) : List Str :=
  let comps := (p.splitOn '/').filter (fun c => c ≠ [] ∧ c ≠ ['.'])
  if p.headD ' ' == '/' then "/".data :: comps else comps

/-- Embeds `pathlib.PurePosixPath(p).name`: the last component. -/
def pathName (p : Str) : Str :=
  (((p.splitOn '/').filter (fun c => c ≠ [] ∧ c ≠ ['.']))).getLastD []

/-- Embeds `pathlib.PurePosixPath(p).stem`: the name with its suffix removed; the
suffix starts at the last dot when that dot is neither the first nor the last
character of the name. -/
def pathStem (p : Str) : Str :=
  let name := pathName p
  let i := pyRfind name ['.'] 0 name.length
  if 0 < i ∧ i < (name.length : Int) - 1 then name.take i.toNat else name

/-- The concatenated term list of `_extract_terms_from_diff` before cleaning
(src/server.py line 217): function/class names, assignment identifiers,
quoted API paths, import identifiers, the file stem, the path components. -/
def rawTerms (added removed : List Str) (file_path : Str) : List Str :=
  let text := joinWith ' ' (added ++ removed)
  let function_names := findFnNames text
  let variable_names := findVarNames text
  let api_routes := (findRoutes text).filter (fun r => r.headD ' ' == '/' ∧ 1 < r.length)
  let imports := findImports text
  function_names ++ variable_names ++ api_routes ++ imports ++
    [pathStem file_path] ++ pathParts file_path

/-- The cleaning comprehension of src/server.py line 220: keep the nonempty
terms longer than 2 made of alphanumeric characters only, lowercased. -/
def cleanTerms (added removed : List Str) (file_path : Str) : List Str :=
  ((rawTerms added removed file_path).filter
    (fun t => t ≠ [] ∧ 2 < t.length ∧ t.all Char.isAlphanum)).map pyLower

/-- The duplicate-removal loop of src/server.py lines 223-228: keep the first
occurrence of each term. -/
def dedupKeepFirst (seen : List Str) : List Str → List Str
  | [] => []
  | t :: ts =>
    if t ∈ seen then dedupKeepFirst seen ts
    else t :: dedupKeepFirst (t :: seen) ts

/-- The function `_extract_terms_from_diff(added_lines, removed_lines, file_path)`
(src/server.py lines 193-230). -/
def extractTermsFromDiff (added removed : List Str) (file_path : Str) : List Str :=
  (dedupKeepFirst [] (cleanTerms added removed file_path)).take 10

/-! ### Suggestions and their ordering (`check_docs`, src/server.py
lines 349-434) -/

/-- One suggestion dict built by `check_docs` (src/server.py lines 387-410).
Distances and scores are modelled as rationals. -/
structure Suggestion where
  code_file : Str
  related_doc : Option Str
  relevance_score : ℚ
  suggestion : Str
  doc_preview : Option Str
  diff_summary : Str
  is_in_docs_directory : Bool
  commit_range : Str
  change_type : Str
deriving DecidableEq

/-- The sort key of src/server.py line 417:
`(x['is_in_docs_directory'], x['relevance_score'])`, compared as Python
compares tuples (`False < True`). -/
def suggKey (s : Suggestion) : Bool × ℚ := (s.is_in_docs_directory, s.relevance_score)

/-- Strict lexicographic order on sort keys, as Python orders the tuples. -/
def keyLtB : Bool × ℚ → Bool × ℚ → Bool
  | (b1, r1), (b2, r2) => (!b1 && b2) || (b1 == b2 && decide (r1 < r2))

/-- Insert into a descending-sorted list, after every element whose key is
strictly greater and before the first whose key is less than or equal:
exactly where a stable descending sort places a later-arriving element. -/
def insertDescSugg (x : Suggestion) : List Suggestion → List Suggestion
  | [] => [x]
  | y :: ys =>
    if keyLtB (suggKey x) (suggKey y) then y :: insertDescSugg x ys
    else x :: y :: ys

/-- Embeds `suggestions.sort(key=…, reverse=True)` (src/server.py line 417). Python's
sort is stable; a stable descending sort's output is determined uniquely by
being a permutation, descending on the key, and key-stable, so this insertion
formulation computes the same list as Timsort. -/
def sortSuggestions : List Suggestion → List Suggestion
  | [] => []
  | x :: xs => insertDescSugg x (sortSuggestions xs)

/-- The expression `relevance_score = 1 - distance`, as computed for each query result in
`check_docs` (src/server.py line 390) and in `search_documentation`
(src/server.py line 470). The code applies no clamping. -/
def relevanceScore (distance : ℚ) : ℚ := 1 - distance

/-! ### Markdown indexing (`process_markdown` src/server.py lines 54-72,
`index_documentation` lines 232-282) -/

/-- One chunk dict of `process_markdown`: content plus metadata. -/
structure ChunkRec where
  content : Str
  file_path : Str
  chunk_index : Nat
  total_chunks : Nat
  indexed_at : Str
deriving DecidableEq

/-- The task prefix added before chunking (src/server.py line 56). -/
def searchDocMarker : Str := "search_document: ".data

/-- Embeds `DocumentProcessor.process_markdown(content, file_path)` (src/server.py
lines 54-72): prefix, chunk (with the given fuel), and tag each chunk with
its metadata; `now` stands for `datetime.now().isoformat()`. -/
def processMarkdown (p : DocumentProcessor) (now : Str) (content file_path : Str)
    (fuel : Nat) : Option (List ChunkRec) :=
  (chunkTextFuel p (searchDocMarker ++ content) fuel).map fun chunks =>
    chunks.enum.map fun ic =>
      { content := ic.2, file_path := file_path, chunk_index := ic.1,
        total_chunks := chunks.length, indexed_at := now }

/-- The id list of src/server.py line 262:
one id `f"{stem}_{j}_{hash(content)}"` per chunk. Python's builtin `hash` is
process-seeded, so it enters the model as an explicit parameter. -/
def chunkIds (hash : Str → Int) (stem : Str) (recs : List ChunkRec) : List Str :=
  recs.enum.map fun jc =>
    stem ++ ['_'] ++ natRepr jc.1 ++ ['_'] ++ intRepr (hash jc.2.content)

/-- Observable actions of `index_documentation`, in execution order: progress
messages, the collection get-or-create (which creates the collection when it
does not exist), and `collection.add` upserts. -/
inductive IndexEvent where
  | info (msg : Str)
  | getOrCreateCollection (name : Str)
  | addChunks (ids : List Str)
  | progress (current total : Nat)
  | warning (msg : Str)
  | error (msg : Str)
deriving DecidableEq

/-- A markdown file as `index_documentation` sees it: `stem` is
`md_file.stem`, `rel_path` is `str(md_file.relative_to(docs_path))`. -/
structure MdFile where
  stem : Str
  rel_path : Str
  content : Str

/-- Per-file body of the indexing loop (src/server.py lines 253-275). -/
def indexOneFile (hash : Str → Int) (p : DocumentProcessor) (now : Str)
    (fuel : Nat) (total : Nat) (i : Nat) (f : MdFile) :
    List IndexEvent × Nat :=
  match processMarkdown p now f.content f.rel_path fuel with
  | some chunks =>
    ([IndexEvent.addChunks (chunkIds hash f.stem chunks),
      IndexEvent.progress (i + 1) total], chunks.length)
  | none =>
    ([IndexEvent.warning ("Failed to index ".data ++ f.rel_path)], 0)

/-- Embeds `index_documentation(folder_path, collection_name)` (src/server.py lines
232-282) as a trace of events plus a result. The filesystem is abstracted to
`folderExists` and the markdown files found by `rglob`; the collection
get-or-create happens before the existence check, exactly as in the source
(lines 242-246). `none`-producing chunking (fuel exhaustion) maps to the
per-file warning branch. -/
def indexDocumentation (hash : Str → Int) (p : DocumentProcessor) (now : Str)
    (fuel : Nat) (folder_path collection_name : Str) (folderExists : Bool)
    (md_files : List MdFile) : List IndexEvent × Except Str Str :=
  let ev0 := [IndexEvent.info ("Indexing documentation from ".data ++ folder_path),
              IndexEvent.getOrCreateCollection collection_name]
  if folderExists then
    let ev1 := ev0 ++ [IndexEvent.info ("Found markdown files".data)]
    let step := md_files.enum.map fun ifl =>
      indexOneFile hash p now fuel md_files.length ifl.1 ifl.2
    let evs := (step.map Prod.fst).flatten
    let total_chunks := (step.map Prod.snd).sum
    (ev1 ++ evs ++ [IndexEvent.info ("Indexed chunks".data)],
     Except.ok ("Successfully indexed ".data ++ natRepr md_files.length ++
       " documents with ".data ++ natRepr total_chunks ++ " chunks".data))
  else
    let msg := "Path ".data ++ folder_path ++ " does not exist".data
    (ev0 ++ [IndexEvent.error ("Indexing failed: ".data ++ msg)], Except.error msg)

/-! ### Supporting lemmas -/

theorem lookup_mem_pairs (ps : List (Char × Char)) (a b : Char)
    (h : ps.lookup a = some b) : (a, b) ∈ ps := by
  induction ps with
  | nil => exact Option.noConfusion h
  | cons p ps ih =>
    obtain ⟨k, v⟩ := p
    rw [List.lookup] at h
    cases hak : a == k with
    | false =>
      rw [hak] at h
      exact List.mem_cons_of_mem _ (ih h)
    | true =>
      rw [hak] at h
      obtain rfl : v = b := Option.some.inj h
      have hk : a = k := eq_of_beq hak
      subst hk
      exact List.mem_cons_self _ _

theorem pyLowerPairs_snd_good : ∀ pr ∈ pyLowerPairs,
    pr.2.isAlphanum = true ∧ pyLowerPairs.lookup pr.2 = none ∧ pr.2 ≠ '/' := by
  decide

theorem pyLowerChar_alnum (c : Char) (h : c.isAlphanum = true) :
    (pyLowerChar c).isAlphanum = true := by
  unfold pyLowerChar
  cases hl : pyLowerPairs.lookup c with
  | none => exact h
  | some l => exact (pyLowerPairs_snd_good _ (lookup_mem_pairs _ _ _ hl)).1

theorem pyLowerChar_idem (c : Char) :
    pyLowerChar (pyLowerChar c) = pyLowerChar c := by
  unfold pyLowerChar
  cases hl : pyLowerPairs.lookup c with
  | none => simp [hl]
  | some l =>
    simp only
    rw [(pyLowerPairs_snd_good _ (lookup_mem_pairs _ _ _ hl)).2.1]

theorem pyLower_idem (s : Str) : pyLower (pyLower s) = pyLower s := by
  unfold pyLower
  rw [List.map_map]
  exact List.map_congr_left fun c _ => pyLowerChar_idem c

theorem dedupKeepFirst_sublist (l : List Str) :
    ∀ seen, (dedupKeepFirst seen l).Sublist l := by
  induction l with
  | nil => intro seen; simp [dedupKeepFirst]
  | cons t ts ih =>
    intro seen
    unfold dedupKeepFirst
    by_cases h : t ∈ seen
    · simp only [if_pos h]
      exact (ih seen).trans (List.sublist_cons_self t ts)
    · simp only [if_neg h]
      exact List.Sublist.cons₂ t (ih (t :: seen))

theorem dedupKeepFirst_not_mem_seen (l : List Str) :
    ∀ seen t, t ∈ dedupKeepFirst seen l → t ∉ seen := by
  induction l with
  | nil => intro seen t h; simp [dedupKeepFirst] at h
  | cons u us ih =>
    intro seen t h
    unfold dedupKeepFirst at h
    by_cases hu : u ∈ seen
    · simp only [if_pos hu] at h
      exact ih seen t h
    · simp only [if_neg hu] at h
      rcases List.mem_cons.mp h with rfl | h
      · exact hu
      · intro hs
        exact ih (u :: seen) t h (List.mem_cons_of_mem _ hs)

theorem dedupKeepFirst_nodup (l : List Str) :
    ∀ seen, (dedupKeepFirst seen l).Nodup := by
  induction l with
  | nil => intro seen; simp [dedupKeepFirst]
  | cons t ts ih =>
    intro seen
    unfold dedupKeepFirst
    by_cases h : t ∈ seen
    · simp only [if_pos h]; exact ih seen
    · simp only [if_neg h]
      refine List.nodup_cons.mpr ⟨fun hm => ?_, ih (t :: seen)⟩
      exact dedupKeepFirst_not_mem_seen ts (t :: seen) t hm (List.mem_cons_self t seen)

theorem extractTerms_sublist_clean (added removed : List Str) (fp : Str) :
    (extractTermsFromDiff added removed fp).Sublist
      (cleanTerms added removed fp) := by
  unfold extractTermsFromDiff
  exact (List.take_sublist _ _).trans (dedupKeepFirst_sublist _ [])

theorem mem_cleanTerms (added removed : List Str) (fp : Str) (t : Str)
    (h : t ∈ cleanTerms added removed fp) :
    ∃ u, 2 < u.length ∧ u.all Char.isAlphanum = true ∧ t = pyLower u := by
  unfold cleanTerms at h
  obtain ⟨u, hu, rfl⟩ := List.mem_map.mp h
  obtain ⟨-, hprops⟩ := List.mem_filter.mp hu
  simp only [decide_eq_true_eq] at hprops
  exact ⟨u, hprops.2.1, hprops.2.2, rfl⟩

theorem mem_extractTerms_props (added removed : List Str) (fp : Str) (t : Str)
    (h : t ∈ extractTermsFromDiff added removed fp) :
    2 < t.length ∧ t.all Char.isAlphanum = true ∧ pyLower t = t := by
  have hc : t ∈ cleanTerms added removed fp :=
    (extractTerms_sublist_clean added removed fp).subset h
  obtain ⟨u, hlen, halnum, rfl⟩ := mem_cleanTerms added removed fp t hc
  refine ⟨?_, ?_, pyLower_idem u⟩
  · simpa [pyLower] using hlen
  · unfold pyLower
    rw [List.all_map]
    refine List.all_eq_true.mpr fun c hc => ?_
    exact pyLowerChar_alnum c (List.all_eq_true.mp halnum c hc)

theorem extract_no_slash (added removed : List Str) (fp : Str) (t : Str)
    (h : t ∈ extractTermsFromDiff added removed fp) : '/' ∉ t := by
  intro hmem
  have halnum := (mem_extractTerms_props added removed fp t h).2.1
  have : ('/' : Char).isAlphanum = true := List.all_eq_true.mp halnum _ hmem
  exact absurd this (by decide)

/-- C5: for every input, `_extract_terms_from_diff` returns at most 10 terms,
without duplicates, each of length > 2, purely alphanumeric and lowercase
(invariant under lowering), and the output is an order-preserving
subsequence of the cleaned term list (deduplication keeps first
occurrences). -/
theorem extract_terms_wellformed (added removed : List Str) (fp : Str) :
    (extractTermsFromDiff added removed fp).length ≤ 10 ∧
    (extractTermsFromDiff added removed fp).Nodup ∧
    (∀ t ∈ extractTermsFromDiff added removed fp,
      2 < t.length ∧ t.all Char.isAlphanum = true ∧ pyLower t = t) ∧
    (extractTermsFromDiff added removed fp).Sublist
      (cleanTerms added removed fp) := by
  refine ⟨?_, ?_, fun t ht => mem_extractTerms_props added removed fp t ht,
    extractTerms_sublist_clean added removed fp⟩
  · unfold extractTermsFromDiff
    simp [List.length_take]
  · unfold extractTermsFromDiff
    exact (List.take_sublist _ _).nodup (dedupKeepFirst_nodup _ [])

/-! ### Claim C1: the analyzer on empty inputs -/

/-- C1 counterexample: `_analyze_diff_significance([], [], "f.py")` returns
significance score 1, not 0 — the `+1` high-priority-extension bonus for
`.py` applies even when both line lists are empty. -/
theorem analyze_empty_py_score_not_zero :
    (analyzeDiffSignificance [] [] "f.py".data).significance_score = 1 ∧
    (analyzeDiffSignificance [] [] "f.py".data).significance_score ≠ 0 := by
  constructor <;> decide

theorem analyze_change_type_eq (a r : List Str) (fp : Str) :
    (analyzeDiffSignificance a r fp).change_type =
      (if 8 ≤ (analyzeDiffSignificance a r fp).significance_score then "major".data
       else if 5 ≤ (analyzeDiffSignificance a r fp).significance_score then "moderate".data
       else "minor".data) := rfl

theorem analyze_requires_eq (a r : List Str) (fp : Str) :
    (analyzeDiffSignificance a r fp).requires_documentation =
      decide (3 ≤ (analyzeDiffSignificance a r fp).significance_score) := rfl

/-- C1 (amended): on empty inputs the analyzer returns
`requiresDocumentation = false` and `changeType = "minor"`, with score 1 for
`"f.py"` (extension bonus) and score 0 for a path without a high-priority
extension; moreover every call returns one of the three change types (the
function is total, modelling that the Python function never throws). -/
theorem analyze_empty_inputs :
    (analyzeDiffSignificance [] [] "f.py".data).significance_score = 1 ∧
    (analyzeDiffSignificance [] [] "f.py".data).requires_documentation = false ∧
    (analyzeDiffSignificance [] [] "f.py".data).change_type = "minor".data ∧
    (analyzeDiffSignificance [] [] "f.txt".data).significance_score = 0 ∧
    (analyzeDiffSignificance [] [] "f.txt".data).requires_documentation = false ∧
    (analyzeDiffSignificance [] [] "f.txt".data).change_type = "minor".data ∧
    ∀ a r fp, (analyzeDiffSignificance a r fp).change_type = "minor".data ∨
      (analyzeDiffSignificance a r fp).change_type = "moderate".data ∨
      (analyzeDiffSignificance a r fp).change_type = "major".data := by
  have h1 : (analyzeDiffSignificance [] [] "f.py".data).significance_score = 1 := by decide
  have h2 : (analyzeDiffSignificance [] [] "f.txt".data).significance_score = 0 := by decide
  refine ⟨h1, ?_, ?_, h2, ?_, ?_, ?_⟩
  · rw [analyze_requires_eq, h1]; decide
  · rw [analyze_change_type_eq, h1]; decide
  · rw [analyze_requires_eq, h2]; decide
  · rw [analyze_change_type_eq, h2]; decide
  · intro a r fp
    rw [analyze_change_type_eq]
    split_ifs <;> tauto

/-! ### Claim C6: quoted API paths in the extractor output -/

/-- C6 counterexample: no output of `_extract_terms_from_diff`, on any input,
ever contains a slash, so no term derived from a quoted API path (which
always starts with `/`) can appear in the output: the `isalnum` filter drops
every such term. -/
theorem extract_api_path_never_in_output :
    ¬ ∃ added removed fp t,
        t ∈ extractTermsFromDiff added removed fp ∧ '/' ∈ t := by
  rintro ⟨a, r, f, t, ht, hs⟩
  exact extract_no_slash a r f t ht hs

/-- C6 (amended): quoted API paths are collected in priority position (c) of
the raw term list — after definition and assignment identifiers, before
the import identifiers, the file stem and the path parts — but the
alphanumeric
filter then removes every API-path term, so the final output never contains
one. Shown on a concrete input together with the general no-slash fact. -/
theorem extract_api_path_position_then_filtered :
    rawTerms ["speed = 5".data, "def foo(): x".data, "\"/users\"".data,
        "import requests".data] [] "api/handlers.py".data =
      ["foo".data, "speed".data, "/users".data, "requests".data,
        "handlers".data, "api".data, "handlers.py".data] ∧
    extractTermsFromDiff ["speed = 5".data, "def foo(): x".data,
        "\"/users\"".data, "import requests".data] [] "api/handlers.py".data =
      ["foo".data, "speed".data, "requests".data, "handlers".data,
        "api".data] ∧
    ∀ added removed fp t,
      t ∈ extractTermsFromDiff added removed fp → '/' ∉ t := by
  exact ⟨by decide, by decide, extract_no_slash⟩

theorem extract_api_path_position_then_filtered_witness :
    "foo".data ∈ extractTermsFromDiff ["speed = 5".data, "def foo(): x".data,
      "\"/users\"".data, "import requests".data] [] "api/handlers.py".data ∧
    '/' ∉ "foo".data :=
  ⟨by decide,
    extract_api_path_position_then_filtered.2.2 ["speed = 5".data,
      "def foo(): x".data, "\"/users\"".data, "import requests".data]
      [] "api/handlers.py".data "foo".data (by decide)⟩

theorem extract_terms_wellformed_witness :
    (extractTermsFromDiff [] [] "f.py".data).length ≤ 10 :=
  (extract_terms_wellformed [] [] "f.py".data).1

/-! ### Claim C7: relevance scores versus distances -/

/-- C7 counterexample: `relevance_score = 1 - distance` is not clamped; a
vector-store distance of 2 yields relevance −1, outside `[0, 1]`. -/
theorem relevance_out_of_range :
    relevanceScore 2 = -1 ∧ ¬ (0 ≤ relevanceScore 2) := by
  constructor <;> norm_num [relevanceScore]

/-- C7 (amended): `relevance_score = 1 - distance` lies in `[0, 1]` exactly
when the distance lies in `[0, 1]`; the code performs no clamping, so
distances above 1 (as an L2-style metric can return) give negative scores. -/
theorem relevance_in_range_iff (d : ℚ) :
    (0 ≤ relevanceScore d ∧ relevanceScore d ≤ 1) ↔ (0 ≤ d ∧ d ≤ 1) := by
  unfold relevanceScore
  constructor <;> intro h <;> exact ⟨by linarith [h.1, h.2], by linarith [h.1, h.2]⟩

theorem relevance_in_range_iff_witness :
    0 ≤ relevanceScore (1 / 2) ∧ relevanceScore (1 / 2) ≤ 1 :=
  (relevance_in_range_iff (1 / 2)).mpr (by norm_num)

/-! ### Claim C4: suggestion ordering -/

theorem keyLtB_irrefl_of_eq (k1 k2 : Bool × ℚ) (h : k1 = k2) :
    keyLtB k1 k2 = false := by
  subst h
  obtain ⟨b, r⟩ := k1
  simp [keyLtB]

theorem keyLtB_asymm (k1 k2 : Bool × ℚ) (h : keyLtB k1 k2 = true) :
    keyLtB k2 k1 = false := by
  obtain ⟨b1, r1⟩ := k1
  obtain ⟨b2, r2⟩ := k2
  by_cases hr12 : r1 < r2 <;> by_cases hr21 : r2 < r1 <;>
    cases b1 <;> cases b2 <;> simp_all [keyLtB] <;> linarith

theorem keyLtB_ge_trans (k1 k2 k3 : Bool × ℚ) (h12 : keyLtB k1 k2 = false)
    (h23 : keyLtB k2 k3 = false) : keyLtB k1 k3 = false := by
  obtain ⟨b1, r1⟩ := k1
  obtain ⟨b2, r2⟩ := k2
  obtain ⟨b3, r3⟩ := k3
  by_cases h12r : r1 < r2 <;> by_cases h23r : r2 < r3 <;> by_cases h13r : r1 < r3 <;>
    cases b1 <;> cases b2 <;> cases b3 <;> simp_all [keyLtB] <;> linarith

theorem insertDescSugg_perm (x : Suggestion) (l : List Suggestion) :
    (insertDescSugg x l).Perm (x :: l) := by
  induction l with
  | nil => simp [insertDescSugg]
  | cons y ys ih =>
    unfold insertDescSugg
    by_cases h : keyLtB (suggKey x) (suggKey y) = true
    · simp only [if_pos h]
      exact (ih.cons y).trans (List.Perm.swap x y ys)
    · simp only [if_neg h]
      exact List.Perm.refl _

theorem sortSuggestions_perm (l : List Suggestion) :
    (sortSuggestions l).Perm l := by
  induction l with
  | nil => simp [sortSuggestions]
  | cons x xs ih =>
    unfold sortSuggestions
    exact (insertDescSugg_perm x (sortSuggestions xs)).trans (ih.cons x)

theorem insertDescSugg_pairwise (x : Suggestion) (l : List Suggestion)
    (hl : l.Pairwise (fun a b => keyLtB (suggKey a) (suggKey b) = false)) :
    (insertDescSugg x l).Pairwise
      (fun a b => keyLtB (suggKey a) (suggKey b) = false) := by
  induction l with
  | nil => simp [insertDescSugg]
  | cons y ys ih =>
    rcases List.pairwise_cons.mp hl with ⟨hy, hys⟩
    unfold insertDescSugg
    by_cases h : keyLtB (suggKey x) (suggKey y) = true
    · simp only [if_pos h]
      refine List.pairwise_cons.mpr ⟨fun z hz => ?_, ih hys⟩
      rcases List.mem_cons.mp ((insertDescSugg_perm x ys).mem_iff.mp hz) with
        rfl | hzys
      · exact keyLtB_asymm _ _ h
      · exact hy z hzys
    · simp only [if_neg h]
      have hxy : keyLtB (suggKey x) (suggKey y) = false :=
        Bool.eq_false_iff.mpr h
      refine List.pairwise_cons.mpr ⟨fun z hz => ?_, hl⟩
      rcases List.mem_cons.mp hz with rfl | hzys
      · exact hxy
      · exact keyLtB_ge_trans _ _ _ hxy (hy z hzys)

theorem sortSuggestions_pairwise (l : List Suggestion) :
    (sortSuggestions l).Pairwise
      (fun a b => keyLtB (suggKey a) (suggKey b) = false) := by
  induction l with
  | nil => simp [sortSuggestions]
  | cons x xs ih => exact insertDescSugg_pairwise x _ ih

theorem insertDescSugg_filter_key (x : Suggestion) (l : List Suggestion)
    (k : Bool × ℚ) :
    (insertDescSugg x l).filter (fun s => decide (suggKey s = k)) =
      (x :: l).filter (fun s => decide (suggKey s = k)) := by
  induction l with
  | nil => rfl
  | cons y ys ih =>
    unfold insertDescSugg
    by_cases h : keyLtB (suggKey x) (suggKey y) = true
    · simp only [if_pos h]
      by_cases hx : suggKey x = k
      · have hy : ¬ suggKey y = k := by
          intro hyk
          rw [keyLtB_irrefl_of_eq (suggKey x) (suggKey y) (hx.trans hyk.symm)] at h
          exact Bool.false_ne_true h
        simp only [List.filter_cons, decide_eq_true_eq, hy, if_neg, if_false,
          decide_eq_false hy]
        rw [ih]
        simp [List.filter_cons, decide_eq_false hy, hx]
      · simp only [List.filter_cons]
        rw [ih]
        simp [List.filter_cons, decide_eq_false hx]
    · simp only [if_neg h]

theorem sortSuggestions_filter_key (l : List Suggestion) (k : Bool × ℚ) :
    (sortSuggestions l).filter (fun s => decide (suggKey s = k)) =
      l.filter (fun s => decide (suggKey s = k)) := by
  induction l with
  | nil => rfl
  | cons x xs ih =>
    unfold sortSuggestions
    rw [insertDescSugg_filter_key]
    simp only [List.filter_cons]
    rw [ih]

/-- A concrete suggestion outside the docs directory with relevance 0.9. -/
def suggNonDocs09 : Suggestion :=
  { code_file := "a.py".data, related_doc := some "readme.md".data,
    relevance_score := 9 / 10, suggestion := "update docs".data,
    doc_preview := none, diff_summary := "summary".data,
    is_in_docs_directory := false, commit_range := "HEAD".data,
    change_type := "minor".data }

/-- A concrete suggestion inside the docs directory with relevance 0.3. -/
def suggDocs03 : Suggestion :=
  { code_file := "a.py".data, related_doc := some "docs/guide.md".data,
    relevance_score := 3 / 10, suggestion := "update docs".data,
    doc_preview := none, diff_summary := "summary".data,
    is_in_docs_directory := true, commit_range := "HEAD".data,
    change_type := "minor".data }

/-- C4: the final ordering of `check_docs` is a stable descending sort on the
key `(is_in_docs_directory, relevance_score)`: the output is a permutation of
the input, descending in the key, key-stable (equal-key suggestions keep
their input order), every docs-directory suggestion precedes every non-docs
suggestion, and concretely a docs suggestion with score 0.3 ranks before a
non-docs suggestion with score 0.9. -/
theorem check_docs_sort_correct :
    (∀ l : List Suggestion, (sortSuggestions l).Perm l) ∧
    (∀ l : List Suggestion, (sortSuggestions l).Pairwise
      (fun a b => keyLtB (suggKey a) (suggKey b) = false)) ∧
    (∀ (l : List Suggestion) (k : Bool × ℚ),
      (sortSuggestions l).filter (fun s => decide (suggKey s = k)) =
        l.filter (fun s => decide (suggKey s = k))) ∧
    (∀ l : List Suggestion, (sortSuggestions l).Pairwise
      (fun a b => b.is_in_docs_directory = true →
        a.is_in_docs_directory = true)) ∧
    sortSuggestions [suggNonDocs09, suggDocs03] =
      [suggDocs03, suggNonDocs09] := by
  refine ⟨sortSuggestions_perm, sortSuggestions_pairwise,
    sortSuggestions_filter_key, fun l => ?_, ?_⟩
  · refine (sortSuggestions_pairwise l).imp ?_
    intro a b hab hb
    by_contra ha
    have ha' : a.is_in_docs_directory = false := Bool.eq_false_iff.mpr ha
    rw [show keyLtB (suggKey a) (suggKey b) = true by
      simp [keyLtB, suggKey, ha', hb]] at hab
    simp at hab
  · rfl

theorem check_docs_sort_correct_witness :
    (sortSuggestions [suggDocs03]).Perm [suggDocs03] :=
  check_docs_sort_correct.1 [suggDocs03]

/-! ### Claim C9: nonexistent folder in `index_documentation` -/

/-- C9 counterexample: on a nonexistent folder the trace already contains the
collection get-or-create — a vector-store operation that creates the
collection when it is absent — before the failure is raised, so the
operation does not abort before all vector-store writes. -/
theorem index_documentation_collection_before_failure :
    (indexDocumentation (fun _ => 0) {} [] 1 "missing".data "documents".data
        false []).1 =
      [IndexEvent.info "Indexing documentation from missing".data,
       IndexEvent.getOrCreateCollection "documents".data,
       IndexEvent.error "Indexing failed: Path missing does not exist".data] ∧
    (indexDocumentation (fun _ => 0) {} [] 1 "missing".data "documents".data
        false []).2 =
      Except.error "Path missing does not exist".data := by
  constructor <;> rfl

/-- C9 (amended): with a nonexistent folder, `index_documentation` fails
immediately with the error surfaced to the caller and performs no chunk
upsert; however, the collection get-or-create call executes before the
existence check, so the trace up to the failure is exactly: info message,
collection get-or-create, error. -/
theorem index_documentation_nonexistent_folder (hash : Str → Int)
    (p : DocumentProcessor) (now : Str) (fuel : Nat) (fp cn : Str)
    (files : List MdFile) :
    (indexDocumentation hash p now fuel fp cn false files).2 =
      Except.error ("Path ".data ++ fp ++ " does not exist".data) ∧
    (∀ ids, IndexEvent.addChunks ids ∉
      (indexDocumentation hash p now fuel fp cn false files).1) ∧
    (indexDocumentation hash p now fuel fp cn false files).1 =
      [IndexEvent.info ("Indexing documentation from ".data ++ fp),
       IndexEvent.getOrCreateCollection cn,
       IndexEvent.error ("Indexing failed: ".data ++
         ("Path ".data ++ fp ++ " does not exist".data))] := by
  refine ⟨rfl, ?_, rfl⟩
  intro ids hmem
  simp only [indexDocumentation, if_neg (Bool.false_ne_true)] at hmem
  simp at hmem

theorem index_documentation_nonexistent_folder_witness :
    IndexEvent.addChunks [] ∉
      (indexDocumentation (fun _ => 0) {} [] 1 "missing".data
        "documents".data false []).1 :=
  (index_documentation_nonexistent_folder (fun _ => 0) {} [] 1 "missing".data
    "documents".data []).2.1 []

/-! ### Claim C3: chunk id determinism and content sensitivity -/

/-- Decimal value of a digit character (inverse of `Nat.digitChar` below 10). -/
def charVal (c : Char) : Nat := c.toNat - 48

/-- Value of a little-endian digit-character list. -/
def natReprVal : List Char → Nat
  | [] => 0
  | d :: ds => charVal d + 10 * natReprVal ds

theorem charVal_digitChar : ∀ m < 10, charVal (Nat.digitChar m) = m := by decide

theorem natReprVal_natReprGo (fuel : Nat) :
    ∀ n, n ≤ fuel → natReprVal (natReprGo fuel n) = n := by
  induction fuel with
  | zero =>
    intro n hn
    interval_cases n
    rfl
  | succ fuel ih =>
    intro n hn
    match n with
    | 0 => rfl
    | n + 1 =>
      show natReprVal (Nat.digitChar ((n + 1) % 10) :: natReprGo fuel ((n + 1) / 10)) = n + 1
      rw [natReprVal, charVal_digitChar _ (Nat.mod_lt _ (by norm_num)),
        ih ((n + 1) / 10) (by omega)]
      exact Nat.mod_add_div (n + 1) 10

theorem natRepr_injective : ∀ m n, natRepr m = natRepr n → m = n := by
  have key : ∀ k, natReprVal (natRepr k).reverse = k := by
    intro k
    unfold natRepr
    by_cases hk : k = 0
    · subst hk; rfl
    · rw [if_neg hk, List.reverse_reverse]
      exact natReprVal_natReprGo k k le_rfl
  intro m n h
  have h2 := congrArg (fun l => natReprVal l.reverse) h
  simpa [key] using h2

theorem mem_natReprGo (fuel : Nat) :
    ∀ n c, c ∈ natReprGo fuel n → ∃ m, m < 10 ∧ c = Nat.digitChar m := by
  induction fuel with
  | zero => intro n c h; simp [natReprGo] at h
  | succ fuel ih =>
    intro n c h
    match n with
    | 0 => simp [natReprGo] at h
    | n + 1 =>
      rcases List.mem_cons.mp h with rfl | h
      · exact ⟨(n + 1) % 10, Nat.mod_lt _ (by norm_num), rfl⟩
      · exact ih _ c h

theorem hyphen_not_mem_natRepr (n : Nat) : '-' ∉ natRepr n := by
  unfold natRepr
  split_ifs with h
  · decide
  · intro hm
    rw [List.mem_reverse] at hm
    obtain ⟨m, hm10, hc⟩ := mem_natReprGo n n '-' hm
    have hd : ∀ m < 10, Nat.digitChar m ≠ '-' := by decide
    exact hd m hm10 hc.symm

theorem intRepr_injective : ∀ i j : Int, intRepr i = intRepr j → i = j := by
  intro i j h
  unfold intRepr at h
  split_ifs at h with hi hj hj
  · have := natRepr_injective _ _ (List.cons.inj h).2
    omega
  · exact absurd (h ▸ List.mem_cons_self '-' _) (hyphen_not_mem_natRepr j.natAbs)
  · exact absurd (h ▸ List.mem_cons_self '-' _) (hyphen_not_mem_natRepr i.natAbs)
  · have := natRepr_injective _ _ h
    omega

theorem chunkIds_eq_map_contents (hash : Str → Int) (stem : Str)
    (recs : List ChunkRec) :
    chunkIds hash stem recs = (recs.map (fun r => r.content)).enum.map
      (fun jc => stem ++ ['_'] ++ natRepr jc.1 ++ ['_'] ++ intRepr (hash jc.2)) := by
  unfold chunkIds
  rw [List.enum_map, List.map_map]
  rfl

/-- C3 counterexample: the chunk ids separate different contents only as far
as the hash does. Python's builtin `hash` is salted per process and not
injective, so it enters the embedding as a parameter; under a colliding hash
(here the constant function, standing in for any collision of the
non-cryptographic hash) two different file contents yield identical chunk
id lists, refuting "at least one chunk id differs after a content change". -/
theorem chunk_ids_collision :
    Option.map (chunkIds (fun _ => 0) "doc".data)
        (processMarkdown {} [] "a".data "doc.md".data 1) =
      Option.map (chunkIds (fun _ => 0) "doc".data)
        (processMarkdown {} [] "b".data "doc.md".data 1) ∧
    "a".data ≠ "b".data := by
  constructor
  · rfl
  · decide

/-- C3 (amended): chunk ids are a function of the file stem, the chunk index
and the chunk content only. Hence (i) re-indexing unchanged content under the
same in-process hash function yields identical ids — in particular the ids do
not depend on the `indexed_at` timestamp metadata; and (ii) a content change
yields a different id list precisely as far as the hash values of some chunk
differ: if the hash of the `j`-th chunk content changes, the id lists differ.
(With Python's salted, non-injective builtin `hash`, (ii) is not guaranteed
for every content change, and ids are not stable across process restarts.) -/
theorem chunk_ids_deterministic :
    (∀ (hash : Str → Int) (p : DocumentProcessor) (stem content fp : Str)
        (now1 now2 : Str) (fuel : Nat),
      Option.map (chunkIds hash stem)
          (processMarkdown p now1 content fp fuel) =
        Option.map (chunkIds hash stem)
          (processMarkdown p now2 content fp fuel)) ∧
    (∀ (hash : Str → Int) (stem : Str) (recs1 recs2 : List ChunkRec) (j : Nat)
        (h1 : j < recs1.length) (h2 : j < recs2.length),
      hash (recs1.get ⟨j, h1⟩).content ≠ hash (recs2.get ⟨j, h2⟩).content →
      chunkIds hash stem recs1 ≠ chunkIds hash stem recs2) := by
  constructor
  · intro hash p stem content fp now1 now2 fuel
    unfold processMarkdown
    cases chunkTextFuel p (searchDocMarker ++ content) fuel with
    | none => rfl
    | some chunks =>
      show some _ = some _
      congr 1
      rw [chunkIds_eq_map_contents, chunkIds_eq_map_contents,
        List.map_map, List.map_map]
      rfl
  · intro hash stem recs1 recs2 j h1 h2 hne hEq
    apply hne
    have hl1 : j < (chunkIds hash stem recs1).length := by
      unfold chunkIds
      simpa using h1
    have hl2 : j < (chunkIds hash stem recs2).length := by
      unfold chunkIds
      simpa using h2
    have hq := congrArg (fun l => l[j]?) hEq
    dsimp only at hq
    rw [List.getElem?_eq_getElem hl1, List.getElem?_eq_getElem hl2] at hq
    have hget := Option.some.inj hq
    simp only [chunkIds, List.getElem_map, List.getElem_enum] at hget
    exact intRepr_injective _ _ (List.append_cancel_left hget)

theorem chunk_ids_deterministic_witness :
    chunkIds (fun s => (s.length : Int)) "doc".data
        [{ content := "a".data, file_path := "doc.md".data, chunk_index := 0,
           total_chunks := 1, indexed_at := [] }] ≠
      chunkIds (fun s => (s.length : Int)) "doc".data
        [{ content := "bb".data, file_path := "doc.md".data, chunk_index := 0,
           total_chunks := 1, indexed_at := [] }] :=
  chunk_ids_deterministic.2 (fun s => (s.length : Int)) "doc".data _ _ 0
    (by decide) (by decide) (by decide)

/-! ### Characterization of the `rfind` embedding -/

theorem rfindGo_some_spec (s sub : Str) :
    ∀ steps i j, rfindGo s sub steps i = some j →
      j ≤ i ∧ i ≤ j + steps ∧ matchesAt s sub j = true ∧
        ∀ k, j < k → k ≤ i → matchesAt s sub k = false := by
  intro steps
  induction steps with
  | zero =>
    intro i j h
    unfold rfindGo at h
    split at h
    · obtain rfl := Option.some.inj h
      rename_i hm
      exact ⟨le_rfl, le_rfl, hm,
        fun k hk1 hk2 => absurd (lt_of_lt_of_le hk1 hk2) (lt_irrefl _)⟩
    · exact Option.noConfusion h
  | succ steps ih =>
    intro i j h
    unfold rfindGo at h
    split at h
    · obtain rfl := Option.some.inj h
      rename_i hm
      exact ⟨le_rfl, by omega, hm,
        fun k hk1 hk2 => absurd (lt_of_lt_of_le hk1 hk2) (lt_irrefl _)⟩
    · rename_i hnm
      obtain ⟨hji, hij, hm, hmax⟩ := ih (i - 1) j h
      refine ⟨by omega, by omega, hm, fun k hk1 hk2 => ?_⟩
      rcases Nat.lt_or_ge k i with hki | hki
      · exact hmax k hk1 (by omega)
      · have hkeq : k = i := by omega
        subst hkeq
        exact Bool.eq_false_iff.mpr hnm

theorem rfindGo_none_spec (s sub : Str) :
    ∀ steps i, rfindGo s sub steps i = none →
      ∀ k, i ≤ k + steps → k ≤ i → matchesAt s sub k = false := by
  intro steps
  induction steps with
  | zero =>
    intro i h k hk1 hk2
    unfold rfindGo at h
    split at h
    · exact Option.noConfusion h
    · rename_i hnm
      have hkeq : k = i := by omega
      subst hkeq
      exact Bool.eq_false_iff.mpr hnm
  | succ steps ih =>
    intro i h k hk1 hk2
    unfold rfindGo at h
    split at h
    · exact Option.noConfusion h
    · rename_i hnm
      rcases Nat.lt_or_ge k i with hki | hki
      · exact ih (i - 1) h k (by omega) (by omega)
      · have hkeq : k = i := by omega
        subst hkeq
        exact Bool.eq_false_iff.mpr hnm

theorem pyNorm_le_length (len : Nat) (i : Int) : pyNorm len i ≤ len := by
  unfold pyNorm
  split_ifs <;> omega

theorem pyNorm_add_le (len : Nat) (a : Int) (c : Nat) :
    pyNorm len (a + c) ≤ pyNorm len a + c := by
  unfold pyNorm
  split_ifs <;> omega

theorem pyNorm_of_nonneg_lt (len : Nat) (i : Int) (h0 : 0 ≤ i)
    (hl : i ≤ len) : (pyNorm len i : Int) = i := by
  unfold pyNorm
  split_ifs <;> omega

/-- Full characterization of a successful `pyRfind`: the result is the
largest match position inside the normalized window. -/
theorem pyRfind_some_spec (s sub : Str) (a b : Int)
    (h : pyRfind s sub a b ≠ -1) :
    ∃ jn : Nat, pyRfind s sub a b = (jn : Int) ∧
      pyNorm s.length a ≤ jn ∧ jn + sub.length ≤ pyNorm s.length b ∧
      matchesAt s sub jn = true ∧
      ∀ k : Nat, jn < k → k + sub.length ≤ pyNorm s.length b →
        matchesAt s sub k = false := by
  unfold pyRfind at h ⊢
  dsimp only at h ⊢
  split_ifs at h ⊢ with hwin
  · exact absurd rfl h
  · rcases hgo : rfindGo s sub (pyNorm s.length b - sub.length - pyNorm s.length a)
        (pyNorm s.length b - sub.length) with _ | jn
    · rw [hgo] at h
      exact absurd rfl h
    · obtain ⟨hji, hij, hm, hmax⟩ := rfindGo_some_spec s sub _ _ _ hgo
      exact ⟨jn, rfl, by omega, by omega, hm,
        fun k hk1 hk2 => hmax k hk1 (by omega)⟩

/-- A failed `pyRfind` means there is no match inside the normalized
window. -/
theorem pyRfind_none_spec (s sub : Str) (a b : Int)
    (h : pyRfind s sub a b = -1) :
    ∀ k : Nat, pyNorm s.length a ≤ k → k + sub.length ≤ pyNorm s.length b →
      matchesAt s sub k = false := by
  intro k hk1 hk2
  unfold pyRfind at h
  dsimp only at h
  split_ifs at h with hwin
  · omega
  · rcases hgo : rfindGo s sub (pyNorm s.length b - sub.length - pyNorm s.length a)
        (pyNorm s.length b - sub.length) with _ | jn
    · exact rfindGo_none_spec s sub _ _ hgo k (by omega) (by omega)
    · rw [hgo] at h
      exact absurd (show (jn : Int) = -1 from h) (by omega)

/-! ### Claim C10: chunk lengths never exceed the chunk size -/

theorem findBreakPoint_bound (text : Str) (start e : Int)
    (h : findBreakPoint text start e ≠ -1) :
    ∃ jn : Nat, findBreakPoint text start e = (jn : Int) ∧
      pyNorm text.length start ≤ jn ∧ jn + 1 ≤ pyNorm text.length e := by
  unfold findBreakPoint at h ⊢
  dsimp only at h ⊢
  by_cases h1 : pyRfind text ['\n', '\n'] start e = -1
  · simp only [if_pos h1] at h ⊢
    by_cases h2 : pyRfind text ['.', ' '] start e = -1
    · simp only [if_pos h2] at h ⊢
      obtain ⟨jn, heq, hlo, hhi, -, -⟩ := pyRfind_some_spec text ['\n'] start e h
      exact ⟨jn, heq, hlo, by simpa using hhi⟩
    · simp only [if_neg h2] at h ⊢
      obtain ⟨jn, heq, hlo, hhi, -, -⟩ := pyRfind_some_spec text ['.', ' '] start e h
      refine ⟨jn, heq, hlo, ?_⟩
      simp only [List.length_cons, List.length_nil] at hhi
      omega
  · simp only [if_neg h1] at h ⊢
    obtain ⟨jn, heq, hlo, hhi, -, -⟩ := pyRfind_some_spec text ['\n', '\n'] start e h
    refine ⟨jn, heq, hlo, ?_⟩
    simp only [List.length_cons, List.length_nil] at hhi
    omega

theorem computeEnd_norm_le (p : DocumentProcessor) (text : Str) (start : Int) :
    pyNorm text.length (computeEnd p text start) ≤
      pyNorm text.length start + p.chunk_size := by
  unfold computeEnd
  dsimp only
  by_cases he : start + (p.chunk_size : Int) < (text.length : Int)
  · rw [if_pos he]
    by_cases hbp : findBreakPoint text start (start + (p.chunk_size : Int)) ≠ -1 ∧
        start < findBreakPoint text start (start + (p.chunk_size : Int))
    · rw [if_pos hbp]
      obtain ⟨jn, heq, hlo, hhi⟩ := findBreakPoint_bound text start _ hbp.1
      rw [heq]
      have hb : pyNorm text.length (start + (p.chunk_size : Int)) ≤
          pyNorm text.length start + p.chunk_size := pyNorm_add_le _ _ _
      have hjl : jn + 1 ≤ text.length := by
        have := pyNorm_le_length text.length (start + (p.chunk_size : Int))
        omega
      have : pyNorm text.length ((jn : Int) + 1) = jn + 1 := by
        unfold pyNorm
        split_ifs <;> omega
      omega
    · rw [if_neg hbp]
      exact pyNorm_add_le _ _ _
  · rw [if_neg he]
    exact pyNorm_add_le _ _ _

theorem pySlice_length (s : Str) (a b : Int) :
    (pySlice s a b).length = pyNorm s.length b - pyNorm s.length a := by
  unfold pySlice
  rw [List.length_drop, List.length_take]
  have := pyNorm_le_length s.length b
  omega

theorem pySlice_computeEnd_length (p : DocumentProcessor) (text : Str)
    (start : Int) :
    (pySlice text start (computeEnd p text start)).length ≤ p.chunk_size := by
  rw [pySlice_length]
  have := computeEnd_norm_le p text start
  omega

theorem chunkLoop_lengths (p : DocumentProcessor) (text : Str) :
    ∀ fuel (start : Int) acc out, (∀ c ∈ acc, c.length ≤ p.chunk_size) →
      chunkLoop p text fuel start acc = some out →
      ∀ c ∈ out, c.length ≤ p.chunk_size := by
  intro fuel
  induction fuel with
  | zero =>
    intro start acc out hacc h
    exact Option.noConfusion h
  | succ fuel ih =>
    intro start acc out hacc h
    rw [chunkLoop] at h
    dsimp only at h
    split_ifs at h with hlt hstop
    · obtain rfl := Option.some.inj h
      intro c hc
      rcases List.mem_append.mp hc with hc | hc
      · exact hacc c hc
      · rw [List.mem_singleton.mp hc]
        exact pySlice_computeEnd_length p text start
    · refine ih _ _ out ?_ h
      intro c hc
      rcases List.mem_append.mp hc with hc | hc
      · exact hacc c hc
      · rw [List.mem_singleton.mp hc]
        exact pySlice_computeEnd_length p text start
    · obtain rfl := Option.some.inj h
      exact hacc

/-- C10 counterexample: with chunk size 1, overlap 4 and text `"abcde\nfg"`,
the second loop iteration runs with `start = -3` and cuts at `end = 6`
(Python's negative-index normalization plus a newline break point), so the
raw bounds satisfy `end - start = 9 > chunk_size`; the emitted slice
`text[-3:6]` still has length 1. -/
theorem chunk_raw_bounds_exceed_chunk_size :
    (-3, 6) ∈ chunkRanges ⟨1, 4⟩ "abcde\nfg".data 2 0 [] ∧
    ¬ ((6 : Int) - (-3 : Int) ≤ (1 : Int)) ∧
    (pySlice "abcde\nfg".data (-3) 6).length = 1 := by
  refine ⟨by decide, by decide, by decide⟩

/-- C10 (amended): every chunk emitted by `_chunk_text` has length at most
`chunk_size`, for every text, chunk size and overlap — even though the raw
slice bounds can satisfy `end - start > chunk_size` once `start` goes
negative, Python's slice normalization keeps the emitted chunk short. -/
theorem chunk_length_le_chunk_size (p : DocumentProcessor) (text : Str)
    (fuel : Nat) (out : List Str) (h : chunkTextFuel p text fuel = some out) :
    ∀ c ∈ out, c.length ≤ p.chunk_size :=
  chunkLoop_lengths p text fuel 0 [] out (by simp) h

theorem chunk_length_le_chunk_size_witness :
    chunkTextFuel ⟨5, 1⟩ "hello world".data 4 =
      some ["hello".data, "o wor".data, "rld".data] ∧
    ∀ c ∈ ["hello".data, "o wor".data, "rld".data], c.length ≤ 5 :=
  ⟨by decide, chunk_length_le_chunk_size ⟨5, 1⟩ "hello world".data 4 _ (by decide)⟩

/-! ### Claim C2: chunker termination -/

theorem computeEnd_ge (p : DocumentProcessor) (text : Str) (start : Int)
    (hcs : 1 ≤ p.chunk_size) : start + 1 ≤ computeEnd p text start := by
  unfold computeEnd
  dsimp only
  by_cases he : start + (p.chunk_size : Int) < (text.length : Int)
  · rw [if_pos he]
    by_cases hbp : findBreakPoint text start (start + (p.chunk_size : Int)) ≠ -1 ∧
        start < findBreakPoint text start (start + (p.chunk_size : Int))
    · rw [if_pos hbp]
      have := hbp.2
      omega
    · rw [if_neg hbp]
      omega
  · rw [if_neg he]
    omega

theorem chunkLoop_terminates_overlap_zero (p : DocumentProcessor) (text : Str)
    (hov : p.chunk_overlap = 0) (hcs : 1 ≤ p.chunk_size) :
    ∀ (fuel : Nat) (start : Int) acc, 0 ≤ start →
      start ≤ (text.length : Int) →
      (text.length : Int) < start + (fuel : Int) →
      ∃ out, chunkLoop p text fuel start acc = some out := by
  intro fuel
  induction fuel with
  | zero =>
    intro start acc h0 hle hf
    omega
  | succ fuel ih =>
    intro start acc h0 hle hf
    rw [chunkLoop]
    dsimp only
    by_cases hlt : start < (text.length : Int)
    · rw [if_pos hlt]
      by_cases hstop : (text.length : Int) - 1 ≤
          computeEnd p text start - (p.chunk_overlap : Int)
      · rw [if_pos hstop]
        exact ⟨_, rfl⟩
      · rw [if_neg hstop]
        have hge := computeEnd_ge p text start hcs
        refine ih _ _ (by omega) (by omega) (by omega)
    · rw [if_neg hlt]
      exact ⟨acc, rfl⟩

/-- Helper for the C2 counterexample: on text `"abc"` with chunk size 1 and
overlap 1, every iteration re-enters the loop with `start = 0`, so no amount
of fuel reaches an exit. -/
theorem chunkLoop_abc_stuck :
    ∀ fuel acc, chunkLoop ⟨1, 1⟩ "abc".data fuel 0 acc = none := by
  intro fuel
  induction fuel with
  | zero => intro acc; rfl
  | succ fuel ih => intro acc; exact ih (acc ++ [['a']])

/-- C2 counterexample: the chunker does not terminate for every input — with
chunk size 1, overlap 1 and text `"abc"` the loop revisits `start = 0`
forever; the non-progress guard never fires because the recomputed `start`
stays at 0, below `text_length - 1`. -/
theorem chunker_nonterminating : ¬ ChunkerTerminates ⟨1, 1⟩ "abc".data := by
  rintro ⟨fuel, out, h⟩
  unfold chunkTextFuel at h
  rw [chunkLoop_abc_stuck fuel []] at h
  exact Option.noConfusion h

/-- C2 (amended): the chunker terminates for every input text whenever the
overlap is 0 and the chunk size is at least 1 (fuel `text_length + 1`
suffices); with a positive overlap the non-progress guard does not prevent
infinite loops (for example overlap ≥ chunk size, or a newline falling at
`start + overlap - 1` as the last break in the window). -/
theorem chunker_terminates_overlap_zero (p : DocumentProcessor) (text : Str)
    (hov : p.chunk_overlap = 0) (hcs : 1 ≤ p.chunk_size) :
    ∃ out, chunkTextFuel p text (text.length + 1) = some out := by
  unfold chunkTextFuel
  refine chunkLoop_terminates_overlap_zero p text hov hcs _ 0 [] le_rfl
    (by omega) (by push_cast; omega)

theorem chunker_terminates_overlap_zero_witness :
    ∃ out, chunkTextFuel ⟨1, 0⟩ "abc".data 4 = some out :=
  chunker_terminates_overlap_zero ⟨1, 0⟩ "abc".data rfl (by decide)

/-! ### Claim C8: break-point priority in the chunker -/

theorem findBreakPoint_of_para (text : Str) (start e : Int) (jn : Nat)
    (heq : pyRfind text ['\n', '\n'] start e = (jn : Int)) :
    findBreakPoint text start e = (jn : Int) := by
  unfold findBreakPoint
  dsimp only
  rw [heq]
  rw [if_neg (by omega : ¬ ((jn : Int) = -1)),
    if_neg (by omega : ¬ ((jn : Int) = -1))]

theorem findBreakPoint_of_sentence (text : Str) (start e : Int) (mn : Nat)
    (h1 : pyRfind text ['\n', '\n'] start e = -1)
    (heq : pyRfind text ['.', ' '] start e = (mn : Int)) :
    findBreakPoint text start e = (mn : Int) := by
  unfold findBreakPoint
  dsimp only
  rw [h1, if_pos rfl, heq, if_neg (by omega : ¬ ((mn : Int) = -1))]

theorem computeEnd_of_break (p : DocumentProcessor) (text : Str) (start : Int)
    (qn : Nat) (hwin : start + (p.chunk_size : Int) < (text.length : Int))
    (hfb : findBreakPoint text start (start + (p.chunk_size : Int)) = (qn : Int))
    (hgt : start < (qn : Int)) :
    computeEnd p text start = (qn : Int) + 1 := by
  unfold computeEnd
  dsimp only
  rw [if_pos hwin, hfb, if_pos ⟨by omega, hgt⟩]

theorem findBreakPoint_of_newline (text : Str) (start e : Int) (nn : Nat)
    (h1 : pyRfind text ['\n', '\n'] start e = -1)
    (h2 : pyRfind text ['.', ' '] start e = -1)
    (heq : pyRfind text ['\n'] start e = (nn : Int)) :
    findBreakPoint text start e = (nn : Int) := by
  unfold findBreakPoint
  dsimp only
  rw [h1, if_pos rfl, h2, if_pos rfl, heq]

theorem computeEnd_of_break_not_after (p : DocumentProcessor) (text : Str)
    (start : Int) (qn : Nat)
    (hwin : start + (p.chunk_size : Int) < (text.length : Int))
    (hfb : findBreakPoint text start (start + (p.chunk_size : Int)) = (qn : Int))
    (hle : (qn : Int) ≤ start) :
    computeEnd p text start = start + (p.chunk_size : Int) := by
  unfold computeEnd
  dsimp only
  rw [if_pos hwin, hfb, if_neg]
  rintro ⟨-, hgt⟩
  omega

/-- C8 (amended): whenever the window's right edge falls before the end of
the text, the cut point follows the backward search with these provisos: the
search falls through to a lower-priority pattern only when the
higher-priority pattern occurs nowhere in the window, and the cut is one
character past the found (last) match only when that match starts strictly
after `start` — otherwise the cut is the raw `chunk_size` boundary.
Precisely: (i) if a paragraph break `"\n\n"` starts strictly after `start`
and fits in the window, the cut is one past the last paragraph break;
(ii) if no paragraph break fits anywhere in the window but a sentence break
`". "` starts strictly after `start` and fits, the cut is one past the last
sentence break, keeping the period with the preceding chunk; (iii) if
neither fits anywhere but a single newline starts strictly after `start`,
the cut is one past the last newline; (iv) if the last paragraph break of
the window sits exactly at `start`, the lower-priority searches are never
consulted and the cut is the raw boundary. -/
theorem chunk_break_priority (p : DocumentProcessor) (text : Str)
    (start : Int) (hs : 0 ≤ start)
    (hwin : start + (p.chunk_size : Int) < (text.length : Int)) :
    ((∃ j : Nat, start < (j : Int) ∧
        (j : Int) + 2 ≤ start + (p.chunk_size : Int) ∧
        matchesAt text ['\n', '\n'] j = true) →
      ∃ q : Nat, computeEnd p text start = (q : Int) + 1 ∧
        matchesAt text ['\n', '\n'] q = true ∧ start < (q : Int) ∧
        ∀ k : Nat, q < k → (k : Int) + 2 ≤ start + (p.chunk_size : Int) →
          matchesAt text ['\n', '\n'] k = false) ∧
    ((∀ k : Nat, start ≤ (k : Int) →
        (k : Int) + 2 ≤ start + (p.chunk_size : Int) →
        matchesAt text ['\n', '\n'] k = false) →
      (∃ j : Nat, start < (j : Int) ∧
        (j : Int) + 2 ≤ start + (p.chunk_size : Int) ∧
        matchesAt text ['.', ' '] j = true) →
      ∃ q : Nat, computeEnd p text start = (q : Int) + 1 ∧
        matchesAt text ['.', ' '] q = true ∧ start < (q : Int) ∧
        ∀ k : Nat, q < k → (k : Int) + 2 ≤ start + (p.chunk_size : Int) →
          matchesAt text ['.', ' '] k = false) ∧
    ((∀ k : Nat, start ≤ (k : Int) →
        (k : Int) + 2 ≤ start + (p.chunk_size : Int) →
        matchesAt text ['\n', '\n'] k = false) →
      (∀ k : Nat, start ≤ (k : Int) →
        (k : Int) + 2 ≤ start + (p.chunk_size : Int) →
        matchesAt text ['.', ' '] k = false) →
      (∃ j : Nat, start < (j : Int) ∧
        (j : Int) + 1 ≤ start + (p.chunk_size : Int) ∧
        matchesAt text ['\n'] j = true) →
      ∃ q : Nat, computeEnd p text start = (q : Int) + 1 ∧
        matchesAt text ['\n'] q = true ∧ start < (q : Int) ∧
        ∀ k : Nat, q < k → (k : Int) + 1 ≤ start + (p.chunk_size : Int) →
          matchesAt text ['\n'] k = false) ∧
    ((∃ j : Nat, (j : Int) = start ∧
        (j : Int) + 2 ≤ start + (p.chunk_size : Int) ∧
        matchesAt text ['\n', '\n'] j = true) →
      (∀ k : Nat, start < (k : Int) →
        (k : Int) + 2 ≤ start + (p.chunk_size : Int) →
        matchesAt text ['\n', '\n'] k = false) →
      computeEnd p text start = start + (p.chunk_size : Int)) := by
  have hns : (pyNorm text.length start : Int) = start :=
    pyNorm_of_nonneg_lt _ _ hs (by omega)
  have hne : (pyNorm text.length (start + (p.chunk_size : Int)) : Int) =
      start + (p.chunk_size : Int) :=
    pyNorm_of_nonneg_lt _ _ (by omega) (by omega)
  have hlp : (['\n', '\n'] : Str).length = 2 := rfl
  have hls : (['.', ' '] : Str).length = 2 := rfl
  have hln : (['\n'] : Str).length = 1 := rfl
  refine ⟨?_, ?_, ?_, ?_⟩
  · rintro ⟨j, hj1, hj2, hjm⟩
    have hnz : pyRfind text ['\n', '\n'] start (start + (p.chunk_size : Int)) ≠ -1 := by
      intro habs
      have := pyRfind_none_spec text ['\n', '\n'] start _ habs j
        (by omega) (by rw [hlp]; omega)
      rw [this] at hjm
      exact Bool.false_ne_true hjm
    obtain ⟨jn, heq, hlo, hhi, hm, hmax⟩ := pyRfind_some_spec text ['\n', '\n'] start _ hnz
    rw [hlp] at hhi
    have hjle : j ≤ jn := by
      by_contra hcon
      have := hmax j (by omega) (by rw [hlp]; omega)
      rw [this] at hjm
      exact Bool.false_ne_true hjm
    have hgt : start < (jn : Int) := by omega
    refine ⟨jn, computeEnd_of_break p text start jn hwin
      (findBreakPoint_of_para text start _ jn heq) hgt, hm, hgt, ?_⟩
    intro k hk1 hk2
    exact hmax k hk1 (by rw [hlp]; omega)
  · rintro hnopara ⟨j, hj1, hj2, hjm⟩
    have h1 : pyRfind text ['\n', '\n'] start (start + (p.chunk_size : Int)) = -1 := by
      by_contra habs
      obtain ⟨jn, heq, hlo, hhi, hm, -⟩ := pyRfind_some_spec text ['\n', '\n'] start _ habs
      rw [hlp] at hhi
      have := hnopara jn (by omega) (by omega)
      rw [this] at hm
      exact Bool.false_ne_true hm
    have hnz : pyRfind text ['.', ' '] start (start + (p.chunk_size : Int)) ≠ -1 := by
      intro habs
      have := pyRfind_none_spec text ['.', ' '] start _ habs j
        (by omega) (by rw [hls]; omega)
      rw [this] at hjm
      exact Bool.false_ne_true hjm
    obtain ⟨mn, heq, hlo, hhi, hm, hmax⟩ := pyRfind_some_spec text ['.', ' '] start _ hnz
    rw [hls] at hhi
    have hjle : j ≤ mn := by
      by_contra hcon
      have := hmax j (by omega) (by rw [hls]; omega)
      rw [this] at hjm
      exact Bool.false_ne_true hjm
    have hgt : start < (mn : Int) := by omega
    refine ⟨mn, computeEnd_of_break p text start mn hwin
      (findBreakPoint_of_sentence text start _ mn h1 heq) hgt, hm, hgt, ?_⟩
    intro k hk1 hk2
    exact hmax k hk1 (by rw [hls]; omega)
  · rintro hnopara hnosent ⟨j, hj1, hj2, hjm⟩
    have h1 : pyRfind text ['\n', '\n'] start (start + (p.chunk_size : Int)) = -1 := by
      by_contra habs
      obtain ⟨jn, heq, hlo, hhi, hm, -⟩ := pyRfind_some_spec text ['\n', '\n'] start _ habs
      rw [hlp] at hhi
      have := hnopara jn (by omega) (by omega)
      rw [this] at hm
      exact Bool.false_ne_true hm
    have h2 : pyRfind text ['.', ' '] start (start + (p.chunk_size : Int)) = -1 := by
      by_contra habs
      obtain ⟨jn, heq, hlo, hhi, hm, -⟩ := pyRfind_some_spec text ['.', ' '] start _ habs
      rw [hls] at hhi
      have := hnosent jn (by omega) (by omega)
      rw [this] at hm
      exact Bool.false_ne_true hm
    have hnz : pyRfind text ['\n'] start (start + (p.chunk_size : Int)) ≠ -1 := by
      intro habs
      have := pyRfind_none_spec text ['\n'] start _ habs j
        (by omega) (by rw [hln]; omega)
      rw [this] at hjm
      exact Bool.false_ne_true hjm
    obtain ⟨nn, heq, hlo, hhi, hm, hmax⟩ := pyRfind_some_spec text ['\n'] start _ hnz
    rw [hln] at hhi
    have hjle : j ≤ nn := by
      by_contra hcon
      have := hmax j (by omega) (by rw [hln]; omega)
      rw [this] at hjm
      exact Bool.false_ne_true hjm
    have hgt : start < (nn : Int) := by omega
    refine ⟨nn, computeEnd_of_break p text start nn hwin
      (findBreakPoint_of_newline text start _ nn h1 h2 heq) hgt, hm, hgt, ?_⟩
    intro k hk1 hk2
    exact hmax k hk1 (by rw [hln]; omega)
  · rintro ⟨j, hj0, hj2, hjm⟩ hnolater
    have hnz : pyRfind text ['\n', '\n'] start (start + (p.chunk_size : Int)) ≠ -1 := by
      intro habs
      have := pyRfind_none_spec text ['\n', '\n'] start _ habs j
        (by omega) (by rw [hlp]; omega)
      rw [this] at hjm
      exact Bool.false_ne_true hjm
    obtain ⟨jn, heq, hlo, hhi, hm, hmax⟩ := pyRfind_some_spec text ['\n', '\n'] start _ hnz
    rw [hlp] at hhi
    have hle : (jn : Int) ≤ start := by
      by_contra hcon
      push_neg at hcon
      have := hnolater jn (by omega) (by omega)
      rw [this] at hm
      exact Bool.false_ne_true hm
    exact computeEnd_of_break_not_after p text start jn hwin
      (findBreakPoint_of_para text start _ jn heq) hle

/-- C8 counterexample: the backward search does not always cut one past a
match in the claimed priority order. On `"\n\nab. cdefghijklmnop"` with
chunk size 10 at `start = 0`, the window `[0, 10)` lies strictly inside the
text and contains a paragraph break (at 0) and a sentence break (at 4); yet
the cut is the raw boundary 10 — position 9, the character before the cut,
starts no break of any kind. `rfind` returns the paragraph break at exactly
`start`, which both blocks the sentence-break search (the chain only falls
through on `-1`) and fails the `break_point > start` guard. -/
theorem chunk_break_at_start_blocks_search :
    computeEnd ⟨10, 0⟩ "\n\nab. cdefghijklmnop".data 0 = 10 ∧
    (0 : Int) + (10 : Nat) < ("\n\nab. cdefghijklmnop".data.length : Int) ∧
    matchesAt "\n\nab. cdefghijklmnop".data ['\n', '\n'] 0 = true ∧
    matchesAt "\n\nab. cdefghijklmnop".data ['.', ' '] 4 = true ∧
    matchesAt "\n\nab. cdefghijklmnop".data ['\n', '\n'] 9 = false ∧
    matchesAt "\n\nab. cdefghijklmnop".data ['.', ' '] 9 = false ∧
    matchesAt "\n\nab. cdefghijklmnop".data ['\n'] 9 = false := by
  refine ⟨by decide, by decide, by decide, by decide, by decide, by decide,
    by decide⟩

theorem chunk_break_priority_witness :
    (0 : Int) ≤ 0 ∧ (0 : Int) + (8 : Nat) < ("ab\n\ncdefgh".data.length : Int) ∧
    (∃ q : Nat, computeEnd ⟨8, 0⟩ "ab\n\ncdefgh".data 0 = (q : Int) + 1 ∧
      matchesAt "ab\n\ncdefgh".data ['\n', '\n'] q = true ∧ (0 : Int) < (q : Int) ∧
      ∀ k : Nat, q < k → (k : Int) + 2 ≤ (0 : Int) + (8 : Nat) →
        matchesAt "ab\n\ncdefgh".data ['\n', '\n'] k = false) :=
  ⟨le_rfl, by decide,
    (chunk_break_priority ⟨8, 0⟩ "ab\n\ncdefgh".data 0 le_rfl (by decide)).1
      ⟨2, by decide, by decide, by decide⟩⟩
